import Mathlib

/-!
Verification development for the documentation-deduplication engine
(scripts/deduplicate_docs.py).

The script is embedded shallowly:
* a filesystem is a list of (path, byte content) pairs in tree-walk order;
* paths are lists of characters, manipulated by models of the os.path
  helpers the script uses (basename, dirname, join, relpath) and of the
  Python substring test (the `in` operator on strings);
* the SHA-256 digest is idealised as the byte content itself (the script
  only uses the digest as an injective proxy for content equality);
* the three re.sub substitution passes of update_file_references are
  modelled by an explicit leftmost-match scanner, including the
  IGNORECASE flag applied to the whole pattern and the group-based
  replacement that preserves the originally matched prefix and quote;
* reading a text file with encoding utf-8 and errors ignore is modelled
  by an explicit UTF-8 decoder that drops undecodable bytes, and writing
  re-encodes to UTF-8;
* filesystem failures (read, write, copy, remove) are supplied by an
  oracle so that the script's try/except structure can be examined.
-/

namespace DedupDocs

/-! ## Character and string utilities -/

def slashCh : Char := '/'

def quoteDC : Char := '"'

def quoteSC : Char := Char.ofNat 39

def strChars (s : String) : List Char := s.data

def asciiBytes (s : String) : List Nat := s.data.map Char.toNat

/-- Model of the Python whitespace class backslash-s restricted to ASCII. -/
def isSpaceCh (c : Char) : Bool :=
  c == ' ' || c == Char.ofNat 9 || c == Char.ofNat 10 || c == Char.ofNat 13 ||
  c == Char.ofNat 11 || c == Char.ofNat 12

def isQuoteCh (c : Char) : Bool :=
  c == quoteDC || c == quoteSC

/-- Case-sensitive list prefix test. -/
def startsWithCh : List Char → List Char → Bool
  | [], _ => true
  | _ :: _, [] => false
  | p :: ps, c :: cs => p == c && startsWithCh ps cs

/-- Case-insensitive prefix test, modelling a literal matched under re.IGNORECASE. -/
def startsWithCI : List Char → List Char → Bool
  | [], _ => true
  | _ :: _, [] => false
  | p :: ps, c :: cs => (Char.toLower p == Char.toLower c) && startsWithCI ps cs

/-- Model of the Python substring test (the in operator on strings). -/
def containsSeqCh (needle : List Char) : List Char → Bool
  | [] => needle.isEmpty
  | c :: t => startsWithCh needle (c :: t) || containsSeqCh needle t

def lowerCh (s : List Char) : List Char := s.map Char.toLower

def endsWithCh (suf s : List Char) : Bool :=
  startsWithCh suf.reverse s.reverse

/-! ## Models of the os.path helpers used by the script -/

/-- Split a path on the separator, like Python str.split. -/
def splitSlash : List Char → List (List Char)
  | [] => [[]]
  | c :: r =>
    match splitSlash r with
    | [] => [[c]]
    | h :: t => if c == slashCh then [] :: h :: t else (c :: h) :: t

def joinSlash : List (List Char) → List Char
  | [] => []
  | [x] => x
  | x :: y :: t => x ++ slashCh :: joinSlash (y :: t)

/-- Model of os.path.basename for the separator-normalised paths the script builds. -/
def basenameCh (p : List Char) : List Char :=
  (splitSlash p).getLastD []

/-- Model of os.path.dirname. -/
def dirnameCh (p : List Char) : List Char :=
  joinSlash (splitSlash p).dropLast

/-- Model of os.path.join for a non-empty relative head and a plain tail component. -/
def pathJoinCh (a b : List Char) : List Char :=
  if a.isEmpty then b else a ++ slashCh :: b

def commonLen : List (List Char) → List (List Char) → Nat
  | x :: xs, y :: ys => if x == y then commonLen xs ys + 1 else 0
  | _, _ => 0

/-- Model of os.path.relpath on the relative, already-normalised paths the script uses. -/
def relpathCh (path start : List Char) : List Char :=
  let a := splitSlash path
  let b := splitSlash start
  let n := commonLen a b
  let parts := List.replicate (b.length - n) (strChars "..") ++ a.drop n
  if parts.isEmpty then strChars "." else joinSlash parts

/-! ## The three substitution patterns of update_file_references

Each matcher inspects the head of the remaining text and, on success,
returns the lengths of the two regex capture groups around the old
token: the prefix group (keyword, spacing, opening quote) and the
suffix group (closing quote or url-closing).  The replacement keeps the
originally matched group text and substitutes only the token, exactly
like the backreference-based replacement strings in the script. -/

def spanSpacesLen (s : List Char) : Nat :=
  (s.takeWhile isSpaceCh).length

/-- Matcher for the alternation of the attribute keywords src and href. -/
def tryKeyword (s : List Char) : Option Nat :=
  if startsWithCI (strChars "src") s then some 3
  else if startsWithCI (strChars "href") s then some 4
  else none

/-- Matcher for the HTML pattern: keyword, spaces, equals, spaces, quote, old, quote. -/
def tryHtmlAt (old s : List Char) : Option (Nat × Nat) :=
  match tryKeyword s with
  | none => none
  | some k =>
    let s1 := s.drop k
    let w1 := spanSpacesLen s1
    match s1.drop w1 with
    | [] => none
    | c :: s3 =>
      if c == '=' then
        let w2 := spanSpacesLen s3
        match s3.drop w2 with
        | [] => none
        | q1 :: s5 =>
          if isQuoteCh q1 && startsWithCI old s5 then
            match s5.drop old.length with
            | [] => none
            | q2 :: _ => if isQuoteCh q2 then some (k + w1 + 1 + w2 + 1, 1) else none
          else none
      else none

/-- Matcher for the JS pattern: quote, old, quote. -/
def tryQuotedAt (old s : List Char) : Option (Nat × Nat) :=
  match s with
  | [] => none
  | q1 :: s1 =>
    if isQuoteCh q1 && startsWithCI old s1 then
      match s1.drop old.length with
      | [] => none
      | q2 :: _ => if isQuoteCh q2 then some (1, 1) else none
    else none

/-- Tail of the CSS url pattern: optional quote, spaces, closing parenthesis.
The variant with the quote is tried first, as the greedy optional group does. -/
def tryUrlTail (s : List Char) : Option Nat :=
  let withQ : Option Nat :=
    match s with
    | [] => none
    | q :: s1 =>
      if isQuoteCh q then
        let w := spanSpacesLen s1
        match s1.drop w with
        | c :: _ => if c == '(' then none else if c == ')' then some (1 + w + 1) else none
        | [] => none
      else none
  match withQ with
  | some r => some r
  | none =>
    let w := spanSpacesLen s
    match s.drop w with
    | c :: _ => if c == ')' then some (w + 1) else none
    | [] => none

/-- Matcher for the CSS pattern: url, spaces, open parenthesis, spaces,
optional quote, old, optional quote, spaces, close parenthesis. -/
def tryUrlAt (old s : List Char) : Option (Nat × Nat) :=
  if startsWithCI (strChars "url") s then
    let s1 := s.drop 3
    let w1 := spanSpacesLen s1
    match s1.drop w1 with
    | [] => none
    | c :: s3 =>
      if c == '(' then
        let w2 := spanSpacesLen s3
        let s4 := s3.drop w2
        let g1base := 3 + w1 + 1 + w2
        let withQ : Option (Nat × Nat) :=
          match s4 with
          | [] => none
          | q :: s5 =>
            if isQuoteCh q && startsWithCI old s5 then
              (tryUrlTail (s5.drop old.length)).map (fun g2 => (g1base + 1, g2))
            else none
        match withQ with
        | some r => some r
        | none =>
          if startsWithCI old s4 then
            (tryUrlTail (s4.drop old.length)).map (fun g2 => (g1base, g2))
          else none
      else none
  else none

/-- Leftmost, non-overlapping substitution loop of re.sub: scan left to
right, on a match emit the matched prefix group, the new token and the
matched suffix group, and continue after the match. -/
def reSubGo (tryAt : List Char → Option (Nat × Nat)) (oldLen : Nat) (new : List Char) :
    Nat → List Char → List Char
  | 0, s => s
  | _ + 1, [] => []
  | fuel + 1, c :: rest =>
    match tryAt (c :: rest) with
    | some (g1, g2) =>
      let s := c :: rest
      s.take g1 ++ new ++ ((s.drop (g1 + oldLen)).take g2) ++
        reSubGo tryAt oldLen new fuel (s.drop (g1 + oldLen + g2))
    | none => c :: reSubGo tryAt oldLen new fuel rest

def reSub (tryAt : List Char → Option (Nat × Nat)) (oldLen : Nat) (new s : List Char) :
    List Char :=
  reSubGo tryAt oldLen new s.length s

/-- Sequential application of the three substitution passes of
update_file_references to decoded text. -/
def update_content (content old new : List Char) : List Char :=
  let c1 := reSub (tryHtmlAt old) old.length new content
  let c2 := reSub (tryUrlAt old) old.length new c1
  reSub (tryQuotedAt old) old.length new c2

/-! ## Reading and writing text files

The script opens reference files with encoding utf-8 and errors ignore,
so undecodable bytes are dropped on read; a changed file is written back
re-encoded as UTF-8. -/

/-- UTF-8 decoder with the errors-ignore policy: a valid sequence yields
its scalar value, an invalid or incomplete portion is skipped.  The fuel
argument only forces termination; it is initialised to the length of the
byte list, which every recursive call decreases by at least one. -/
def utf8DecodeIgnoreGo : Nat → List Nat → List Char
  | 0, _ => []
  | _ + 1, [] => []
  | fuel + 1, b :: rest =>
    if b < 128 then Char.ofNat b :: utf8DecodeIgnoreGo fuel rest
    else if 194 ≤ b && b ≤ 223 then
      match rest with
      | [] => []
      | b2 :: r2 =>
        if 128 ≤ b2 && b2 ≤ 191 then
          Char.ofNat ((b - 192) * 64 + (b2 - 128)) :: utf8DecodeIgnoreGo fuel r2
        else utf8DecodeIgnoreGo fuel (b2 :: r2)
    else if 224 ≤ b && b ≤ 239 then
      match rest with
      | [] => []
      | b2 :: r2 =>
        let lo2 := if b == 224 then 160 else 128
        let hi2 := if b == 237 then 159 else 191
        if lo2 ≤ b2 && b2 ≤ hi2 then
          match r2 with
          | [] => []
          | b3 :: r3 =>
            if 128 ≤ b3 && b3 ≤ 191 then
              Char.ofNat ((b - 224) * 4096 + (b2 - 128) * 64 + (b3 - 128)) ::
                utf8DecodeIgnoreGo fuel r3
            else utf8DecodeIgnoreGo fuel (b3 :: r3)
        else utf8DecodeIgnoreGo fuel (b2 :: r2)
    else if 240 ≤ b && b ≤ 244 then
      match rest with
      | [] => []
      | b2 :: r2 =>
        let lo2 := if b == 240 then 144 else 128
        let hi2 := if b == 244 then 143 else 191
        if lo2 ≤ b2 && b2 ≤ hi2 then
          match r2 with
          | [] => []
          | b3 :: r3 =>
            if 128 ≤ b3 && b3 ≤ 191 then
              match r3 with
              | [] => []
              | b4 :: r4 =>
                if 128 ≤ b4 && b4 ≤ 191 then
                  Char.ofNat ((b - 240) * 262144 + (b2 - 128) * 4096 +
                      (b3 - 128) * 64 + (b4 - 128)) :: utf8DecodeIgnoreGo fuel r4
                else utf8DecodeIgnoreGo fuel (b4 :: r4)
            else utf8DecodeIgnoreGo fuel (b3 :: r3)
        else utf8DecodeIgnoreGo fuel (b2 :: r2)
    else utf8DecodeIgnoreGo fuel rest

def utf8DecodeIgnore (l : List Nat) : List Char :=
  utf8DecodeIgnoreGo l.length l

/-- UTF-8 encoding of one scalar value. -/
def utf8EncodeChar (c : Char) : List Nat :=
  let n := c.toNat
  if n < 128 then [n]
  else if n < 2048 then [192 + n / 64, 128 + n % 64]
  else if n < 65536 then [224 + n / 4096, 128 + (n / 64) % 64, 128 + n % 64]
  else [240 + n / 262144, 128 + (n / 4096) % 64, 128 + (n / 64) % 64, 128 + n % 64]

def utf8Encode : List Char → List Nat
  | [] => []
  | c :: r => utf8EncodeChar c ++ utf8Encode r

/-! ## Filesystem model -/

/-- A filesystem snapshot: every regular file below the deploy root with
its byte content, listed in the (deterministic) tree-walk order. -/
abbrev FileSys := List (List Char × List Nat)

def fsExists (fs : FileSys) (p : List Char) : Bool :=
  fs.any (fun e => e.1 == p)

def fsRead (fs : FileSys) (p : List Char) : Option (List Nat) :=
  (fs.find? (fun e => e.1 == p)).map (fun e => e.2)

/-- Write a file: overwrite in place when the path exists, otherwise
append the new file at the end of the walk order. -/
def fsWrite (fs : FileSys) (p : List Char) (c : List Nat) : FileSys :=
  if fsExists fs p then fs.map (fun e => if e.1 == p then (p, c) else e)
  else fs ++ [(p, c)]

def fsRemove (fs : FileSys) (p : List Char) : FileSys :=
  fs.filter (fun e => !(e.1 == p))

def walkPaths (fs : FileSys) : List (List Char) :=
  fs.map (fun e => e.1)

def countContent (fs : FileSys) (c : List Nat) : Nat :=
  (fs.filter (fun e => e.2 == c)).length

/-- Environment oracle deciding which filesystem operations fail, so the
try/except structure of the script can be exercised. -/
structure FsOracle where
  readFails : List Char → Bool
  writeFails : List Char → Bool
  copyFails : List Char → Bool
  removeFails : List Char → Bool

def noFailOracle : FsOracle :=
  ⟨fun _ => false, fun _ => false, fun _ => false, fun _ => false⟩

/-! ## The engine -/

/-- Model of calculate_file_hash: the SHA-256 digest is idealised as the
byte content itself (an injective collision-free fingerprint); a read
failure yields none and the file is excluded from indexing. -/
def calculate_file_hash (orc : FsOracle) (p : List Char) (content : List Nat) :
    Option (List Nat) :=
  if orc.readFails p then none else some content

/-- Append a path to the bucket of its digest, creating the bucket at the
end on first sight — the insertion-order behaviour of the Python dict. -/
def addToIndex (idx : List (List Nat × List (List Char))) (h : List Nat) (p : List Char) :
    List (List Nat × List (List Char)) :=
  match idx with
  | [] => [(h, [p])]
  | (h0, ps) :: rest =>
    if h0 == h then (h0, ps ++ [p]) :: rest else (h0, ps) :: addToIndex rest h p

def indexStep (orc : FsOracle) (idx : List (List Nat × List (List Char)))
    (e : List Char × List Nat) : List (List Nat × List (List Char)) :=
  match calculate_file_hash orc e.1 e.2 with
  | none => idx
  | some h => addToIndex idx h e.1

def buildIndex (orc : FsOracle) (fs : FileSys) : List (List Nat × List (List Char)) :=
  fs.foldl (indexStep orc) []

/-- Model of find_duplicate_files: hash every readable file, then keep
the digests with at least two paths. -/
def find_duplicate_files (orc : FsOracle) (fs : FileSys) :
    List (List Nat × List (List Char)) :=
  (buildIndex orc fs).filter (fun g => 1 < g.2.length)

/-- Model of get_relative_path. -/
def get_relative_path (from_file to_file : List Char) : List Char :=
  relpathCh to_file (dirnameCh from_file)

/-- Model of update_file_references: read the file (utf-8, errors
ignore), apply the three substitution passes, and write back only when
the decoded text changed.  Read and write errors are caught inside and
reported as no change, exactly like the try/except in the script. -/
def update_file_references (orc : FsOracle) (fs : FileSys)
    (file_path old_ref new_ref : List Char) : FileSys × Bool :=
  if orc.readFails file_path then (fs, false)
  else
    match fsRead fs file_path with
    | none => (fs, false)
    | some bytes =>
      let content := utf8DecodeIgnore bytes
      let content2 := update_content content old_ref new_ref
      if content2 == content then (fs, false)
      else if orc.writeFails file_path then (fs, false)
      else (fsWrite fs file_path (utf8Encode content2), true)

/-- Counters accumulated by deduplicate_files. -/
structure DeduplicationStats where
  files_processed : Nat
  files_deduplicated : Nat
  bytes_saved : Nat
  references_updated : Nat
deriving DecidableEq, Repr

def initStats : DeduplicationStats := ⟨0, 0, 0, 0⟩

/-- The filename-based exclusion list of the script. -/
def skip_patterns : List (List Char) :=
  [strChars "search", strChars "navtree", strChars "index.html",
   strChars "files.html", strChars "globals.html"]

def isExcludedName (filename : List Char) : Bool :=
  skip_patterns.any (fun pat => containsSeqCh pat (lowerCh filename))

inductive PolicyResult where
  | tooFew
  | ambiguous
  | excluded
  | accept (canonical shared_file : List Char)
deriving DecidableEq, Repr

/-- The per-group eligibility checks of deduplicate_files, in source
order: group size, then differing basenames, then the exclusion list;
otherwise accept with the first path as canonical file and the shared
destination under the shared directory. -/
def evaluatePolicy (deploy_dir : String) (paths : List (List Char)) : PolicyResult :=
  if paths.length < 2 then .tooFew
  else if 1 < ((paths.map basenameCh).eraseDups).length then .ambiguous
  else
    let filename := basenameCh (paths.headD [])
    if isExcludedName filename then .excluded
    else
      .accept (paths.headD [])
        (pathJoinCh (pathJoinCh (strChars deploy_dir) (strChars "shared")) filename)

def policyAccepts (deploy_dir : String) (paths : List (List Char)) : Bool :=
  match evaluatePolicy deploy_dir paths with
  | .accept _ _ => true
  | _ => false

def isTextualName (p : List Char) : Bool :=
  endsWithCh (strChars ".html") p || endsWithCh (strChars ".css") p ||
  endsWithCh (strChars ".js") p

/-- One candidate file of the reference-update pass: a textual file is
touched only when its full path contains the member's directory as a
substring (the Python in operator on path strings). -/
def rewriteStep (orc : FsOracle) (target_dir old_filename relative_shared_path : List Char)
    (st2 : FileSys × DeduplicationStats) (ref_file : List Char) :
    FileSys × DeduplicationStats :=
  if containsSeqCh target_dir ref_file then
    let r := update_file_references orc st2.1 ref_file old_filename relative_shared_path
    (r.1,
      if r.2 then
        { st2.2 with references_updated := st2.2.references_updated + 1 }
      else st2.2)
  else st2

/-- The reference-update pass for one duplicate member: every textual
file whose full path contains the member's directory as a substring is
rewritten from the member's basename to the path of the shared copy
relative to the member's directory. -/
def rewriteForTarget (orc : FsOracle) (shared_file : List Char)
    (refFiles : List (List Char)) (st : FileSys × DeduplicationStats)
    (target_file : List Char) : FileSys × DeduplicationStats :=
  let target_dir := dirnameCh target_file
  let old_filename := basenameCh target_file
  let relative_shared_path := get_relative_path target_file shared_file
  refFiles.foldl (rewriteStep orc target_dir old_filename relative_shared_path) st

def rewritePhase (orc : FsOracle) (shared_file : List Char)
    (refFiles : List (List Char)) (paths : List (List Char))
    (st : FileSys × DeduplicationStats) : FileSys × DeduplicationStats :=
  paths.foldl (rewriteForTarget orc shared_file refFiles) st

/-- One os.remove call with its local try/except: on failure (or a
missing file) nothing is removed and the counters stay untouched. -/
def removeOne (orc : FsOracle) (file_size : Nat) (st : FileSys × DeduplicationStats)
    (p : List Char) : FileSys × DeduplicationStats :=
  if orc.removeFails p then st
  else if fsExists st.1 p then
    (fsRemove st.1 p,
      { st.2 with
        bytes_saved := st.2.bytes_saved + file_size,
        files_deduplicated := st.2.files_deduplicated + 1 })
  else st

/-- The deletion phase: every non-canonical member first, then the
canonical file. -/
def removalPhase (orc : FsOracle) (paths : List (List Char)) (canonical : List Char)
    (file_size : Nat) (st : FileSys × DeduplicationStats) :
    FileSys × DeduplicationStats :=
  let st1 := paths.foldl
    (fun st2 p => if p == canonical then st2 else removeOne orc file_size st2 p) st
  removeOne orc file_size st1 canonical

/-- One iteration of the group loop of deduplicate_files: evaluate the
policy, copy the canonical file to the shared path (a failure, including
the canonical file already being the shared path, aborts the group),
collect the textual files of the whole tree, run the reference-update
pass per member, delete the members, and count the group as processed. -/
def processGroup (orc : FsOracle) (deploy_dir : String)
    (st : FileSys × DeduplicationStats) (g : List Nat × List (List Char)) :
    FileSys × DeduplicationStats :=
  match evaluatePolicy deploy_dir g.2 with
  | .accept canonical shared_file =>
    if orc.copyFails shared_file || canonical == shared_file then st
    else
      match fsRead st.1 canonical with
      | none => st
      | some content =>
        let fs1 := fsWrite st.1 shared_file content
        let file_size := content.length
        let refFiles := (walkPaths fs1).filter isTextualName
        let st2 := rewritePhase orc shared_file refFiles g.2 (fs1, st.2)
        let st3 := removalPhase orc g.2 canonical file_size st2
        (st3.1, { st3.2 with files_processed := st3.2.files_processed + 1 })
  | _ => st

/-- Model of deduplicate_files: fold the group loop over the duplicate
index, starting from zeroed statistics. -/
def deduplicate_files (orc : FsOracle) (deploy_dir : String) (fs : FileSys)
    (duplicates : List (List Nat × List (List Char))) :
    FileSys × DeduplicationStats :=
  duplicates.foldl (processGroup orc deploy_dir) (fs, initStats)

/-- One full run of the engine: find the duplicate groups, then
deduplicate them. -/
def runEngine (orc : FsOracle) (deploy_dir : String) (fs : FileSys) :
    FileSys × DeduplicationStats :=
  deduplicate_files orc deploy_dir fs (find_duplicate_files orc fs)

/-- The shared destination computed for a group, for stating theorems
about copy failures. -/
def sharedPathOfGroup (deploy_dir : String) (g : List Nat × List (List Char)) :
    List Char :=
  pathJoinCh (pathJoinCh (strChars deploy_dir) (strChars "shared"))
    (basenameCh (g.2.headD []))

/-! ## Concrete trees and oracles used when settling the claims -/

/-- Two accepted duplicate groups, different contents, one shared basename. -/
def fsCollision : FileSys :=
  [(strChars "deploy/t1/f.css", asciiBytes "AAA"),
   (strChars "deploy/t2/f.css", asciiBytes "AAA"),
   (strChars "deploy/t3/f.css", asciiBytes "BBB"),
   (strChars "deploy/t4/f.css", asciiBytes "BBB")]

/-- The collision tree extended with a page referencing the first group. -/
def fsOverwriteRef : FileSys :=
  [(strChars "deploy/t1/f.css", asciiBytes "AAA"),
   (strChars "deploy/t1/page.html", asciiBytes "<a href=\"f.css\">"),
   (strChars "deploy/t2/f.css", asciiBytes "AAA"),
   (strChars "deploy/t3/f.css", asciiBytes "BBB"),
   (strChars "deploy/t4/f.css", asciiBytes "BBB")]

/-- A duplicate pair below deploy/t1 and deploy/t2, plus a page in the
unrelated directory deploy/t10 whose path contains deploy/t1 as a substring. -/
def fsCross : FileSys :=
  [(strChars "deploy/t1/x.css", asciiBytes "AAA"),
   (strChars "deploy/t2/x.css", asciiBytes "AAA"),
   (strChars "deploy/t10/page.html", asciiBytes "<a href=\"x.css\">")]

/-- A tree where the first run's rewrite of deploy/t1/page.html makes it
byte-identical to deploy/t2/page.html. -/
def fsIdem : FileSys :=
  [(strChars "deploy/t1/page.html", asciiBytes "<a href=\"style.css\"></a>"),
   (strChars "deploy/t1/style.css", asciiBytes "AAA"),
   (strChars "deploy/t2/page.html", asciiBytes "<a href=\"../shared/style.css\"></a>"),
   (strChars "deploy/t2/style.css", asciiBytes "AAA")]

/-- A duplicate pair rejected by the exclusion list. -/
def fsIdemW : FileSys :=
  [(strChars "d/a/index.html", asciiBytes "X"),
   (strChars "d/b/index.html", asciiBytes "X")]

/-- Oracle failing exactly the write that the reference rewrite of
deploy/t1/page.html performs. -/
def orcWriteFail : FsOracle :=
  ⟨fun _ => false, fun p => p == strChars "deploy/t1/page.html",
   fun _ => false, fun _ => false⟩

/-- A duplicate pair whose rewrite pass touches deploy/t1/page.html. -/
def fsWriteFail : FileSys :=
  [(strChars "deploy/t1/x.css", asciiBytes "AAA"),
   (strChars "deploy/t2/x.css", asciiBytes "AAA"),
   (strChars "deploy/t1/page.html", asciiBytes "<a href=\"x.css\">")]

/-- Oracle under which every write fails. -/
def orcWriteAll : FsOracle :=
  ⟨fun _ => false, fun _ => true, fun _ => false, fun _ => false⟩

/-- Oracle under which every copy to the shared directory fails. -/
def orcCopyFail : FsOracle :=
  ⟨fun _ => false, fun _ => false, fun _ => true, fun _ => false⟩

/-- A duplicate pair used to exercise copy failure. -/
def fsCopyFail : FileSys :=
  [(strChars "deploy/t1/f.css", asciiBytes "AAA"),
   (strChars "deploy/t2/f.css", asciiBytes "AAA")]

def grpCopyFail : List Nat × List (List Char) :=
  (asciiBytes "AAA", [strChars "deploy/t1/f.css", strChars "deploy/t2/f.css"])

/-- A duplicate pair used to instantiate the statistics theorem. -/
def fsStatsW : FileSys :=
  [(strChars "deploy/u1/g.css", asciiBytes "CCC"),
   (strChars "deploy/u2/g.css", asciiBytes "CCC")]

def grpStatsW : List Nat × List (List Char) :=
  (asciiBytes "CCC", [strChars "deploy/u1/g.css", strChars "deploy/u2/g.css"])

/-- A duplicate pair used to instantiate the policy theorem. -/
def fsPolicyW : FileSys :=
  [(strChars "d/a/x.css", asciiBytes "Z"),
   (strChars "d/b/x.css", asciiBytes "Z")]

/-- A small file used to instantiate the rewrite-failure theorem. -/
def fsUpdW : FileSys :=
  [(strChars "d/a/p.html", asciiBytes "<a href=\"x.css\">")]

/-- Bytes of an HTML fragment with an undecodable byte 255 after the
token-bearing attribute. -/
def bytesMixed : List Nat :=
  asciiBytes "<a href=\"x.css\">" ++ [255] ++ asciiBytes "<b>"

def fsMixed : FileSys :=
  [(strChars "d/a/p.html", bytesMixed)]

/-! ## Claim theorems -/

/-- C1 (failing-input evaluation): on a tree holding two accepted
duplicate groups with the same basename f.css but different contents
(AAA in deploy/t1 and deploy/t2, BBB in deploy/t3 and deploy/t4), one
run of the engine leaves zero physical copies of the AAA content — the
group processed later overwrites deploy/shared/f.css with BBB — even
though both AAA files had identical bytes and an identical, non-excluded
basename.  The claim demands that exactly one AAA copy survive at the
shared path. -/
theorem dedup_C1_shared_collision :
    countContent (runEngine noFailOracle "deploy" fsCollision).1 (asciiBytes "AAA") = 0 ∧
    fsRead (runEngine noFailOracle "deploy" fsCollision).1 (strChars "deploy/shared/f.css")
      = some (asciiBytes "BBB") := by
  constructor
  · rfl
  · rfl

/-- C9: with the collision tree of C1 extended by a page in deploy/t1
that referenced f.css, the later group's content BBB is what ends up at
deploy/shared/f.css, the earlier group's content AAA survives nowhere,
and the reference rewritten for the earlier group now points (via
../shared/f.css) at the later group's bytes. -/
theorem dedup_C9_shared_overwrite :
    fsRead (runEngine noFailOracle "deploy" fsOverwriteRef).1 (strChars "deploy/shared/f.css")
      = some (asciiBytes "BBB") ∧
    fsRead (runEngine noFailOracle "deploy" fsOverwriteRef).1 (strChars "deploy/t1/page.html")
      = some (asciiBytes "<a href=\"../shared/f.css\">") ∧
    countContent (runEngine noFailOracle "deploy" fsOverwriteRef).1 (asciiBytes "AAA") = 0 := by
  refine ⟨rfl, rfl, rfl⟩

/-- C3 (failing-input evaluation): while deduplicating the group whose
members live in deploy/t1 and deploy/t2, the engine rewrites
deploy/t10/page.html — a textual file residing in neither member's
directory — because the membership test is a plain substring check on
the path and deploy/t1 occurs inside deploy/t10/page.html.  The claim
(and the script's own comment) say only files in the member's directory
are rewritten. -/
theorem dedup_C3_cross_directory_rewrite :
    fsRead (runEngine noFailOracle "deploy" fsCross).1 (strChars "deploy/t10/page.html")
      = some (asciiBytes "<a href=\"../shared/x.css\">") ∧
    containsSeqCh (strChars "deploy/t1") (strChars "deploy/t10/page.html") = true ∧
    (dirnameCh (strChars "deploy/t10/page.html") == strChars "deploy/t1") = false ∧
    (dirnameCh (strChars "deploy/t10/page.html") == strChars "deploy/t2") = false := by
  refine ⟨rfl, rfl, rfl, rfl⟩

/-- C2 (counterexample): the engine is not idempotent.  On the tree
fsIdem the first run rewrites deploy/t1/page.html so that it becomes
byte-identical to deploy/t2/page.html; the second run then finds and
deduplicates this new group, reporting files_deduplicated = 2 instead of
the 0 the claim requires. -/
theorem dedup_C2_second_run_changes :
    (runEngine noFailOracle "deploy"
        (runEngine noFailOracle "deploy" fsIdem).1).2.files_deduplicated = 2 := by
  rfl

/-- C5 (counterexample): a failed reference rewrite does not abort the
group.  Under an oracle failing exactly the write to
deploy/t1/page.html, the rewrite of that file fails (the file keeps its
stale reference), yet both members of the duplicate group are deleted
and counted, contradicting the claim that no member is deleted. -/
theorem dedup_C5_members_deleted_after_failed_rewrite :
    fsRead (runEngine orcWriteFail "deploy" fsWriteFail).1 (strChars "deploy/t1/x.css")
      = none ∧
    fsRead (runEngine orcWriteFail "deploy" fsWriteFail).1 (strChars "deploy/t2/x.css")
      = none ∧
    fsRead (runEngine orcWriteFail "deploy" fsWriteFail).1 (strChars "deploy/t1/page.html")
      = some (asciiBytes "<a href=\"x.css\">") ∧
    (runEngine orcWriteFail "deploy" fsWriteFail).2.files_deduplicated = 2 := by
  refine ⟨rfl, rfl, rfl, rfl⟩

/-- C6 (counterexample): the token STYLE.CSS differs in case from the
old basename style.css, yet the substitution replaces it — the
IGNORECASE flag covers the whole pattern, not just the attribute
keyword, refuting the claim that a token is replaced only when it
matches the old basename case-sensitively. -/
theorem dedup_C6_case_insensitive_token :
    update_content (strChars "href=\"STYLE.CSS\"") (strChars "style.css")
        (strChars "../shared/style.css")
      = strChars "href=\"../shared/style.css\"" := by
  rfl

/-- A policy accept determines the canonical file and the shared path. -/
theorem evaluatePolicy_accept_shared {deploy_dir : String} {paths : List (List Char)}
    {c s : List Char} (h : evaluatePolicy deploy_dir paths = .accept c s) :
    c = paths.headD [] ∧
    s = pathJoinCh (pathJoinCh (strChars deploy_dir) (strChars "shared"))
          (basenameCh (paths.headD [])) := by
  unfold evaluatePolicy at h
  split at h
  · simp at h
  · split at h
    · simp at h
    · dsimp only at h
      split at h
      · simp at h
      · simp only [PolicyResult.accept.injEq] at h
        exact ⟨h.1.symm, h.2.symm⟩

/-- A group the policy does not accept leaves the state untouched. -/
theorem processGroup_skip (orc : FsOracle) (deploy_dir : String)
    (st : FileSys × DeduplicationStats) (g : List Nat × List (List Char))
    (h : policyAccepts deploy_dir g.2 = false) :
    processGroup orc deploy_dir st g = st := by
  unfold processGroup
  unfold policyAccepts at h
  cases hE : evaluatePolicy deploy_dir g.2
  · rfl
  · rfl
  · rfl
  · rw [hE] at h
    simp at h

/-- Folding the group loop over groups the policy rejects is a no-op. -/
theorem foldl_processGroup_skip (orc : FsOracle) (deploy_dir : String) :
    ∀ (gs : List (List Nat × List (List Char))) (st : FileSys × DeduplicationStats),
      (∀ g ∈ gs, policyAccepts deploy_dir g.2 = false) →
      gs.foldl (processGroup orc deploy_dir) st = st
  | [], _, _ => rfl
  | g :: t, st, h => by
    rw [List.foldl_cons, processGroup_skip orc deploy_dir st g (h g (List.mem_cons_self g t))]
    exact foldl_processGroup_skip orc deploy_dir t st
      (fun g' hg' => h g' (List.mem_cons_of_mem _ hg'))

/-- C4: when the copy of the canonical file to the group's shared path
fails, the whole group is skipped: the filesystem and the statistics are
exactly what they were before the group, no member is deleted, and the
fold continues with the remaining groups as if the failed group were
absent. -/
theorem dedup_C4_copy_failure (orc : FsOracle) (deploy_dir : String)
    (fs : FileSys) (stats : DeduplicationStats)
    (g : List Nat × List (List Char)) (gs : List (List Nat × List (List Char)))
    (h : orc.copyFails (sharedPathOfGroup deploy_dir g) = true) :
    List.foldl (processGroup orc deploy_dir) (fs, stats) (g :: gs)
      = List.foldl (processGroup orc deploy_dir) (fs, stats) gs := by
  have hg : processGroup orc deploy_dir (fs, stats) g = (fs, stats) := by
    unfold processGroup
    cases hE : evaluatePolicy deploy_dir g.2
    · rfl
    · rfl
    · rfl
    · rename_i c s
      have hs := (evaluatePolicy_accept_shared hE).2
      have : orc.copyFails s = true := by
        rw [hs]; exact h
      simp [this]
  rw [List.foldl_cons, hg]

/-- C4 (witness): a concrete group whose shared-path copy fails is
skipped by the fold. -/
theorem dedup_C4_copy_failure_witness :
    orcCopyFail.copyFails (sharedPathOfGroup "deploy" grpCopyFail) = true ∧
    List.foldl (processGroup orcCopyFail "deploy") (fsCopyFail, initStats) [grpCopyFail]
      = List.foldl (processGroup orcCopyFail "deploy") (fsCopyFail, initStats) [] :=
  ⟨rfl, dedup_C4_copy_failure orcCopyFail "deploy" fsCopyFail initStats grpCopyFail [] rfl⟩

/-- C2 (amended): the second run changes nothing provided the tree left
by the first run contains no duplicate group that the policy accepts;
the engine run on any such tree returns it unchanged with all counters
zero.  Unconditional idempotence fails because a first run's reference
rewrites can create new byte-identical duplicates. -/
theorem dedup_C2_amended (orc : FsOracle) (deploy_dir : String) (fs : FileSys)
    (h : ∀ g ∈ find_duplicate_files orc fs, policyAccepts deploy_dir g.2 = false) :
    runEngine orc deploy_dir fs = (fs, initStats) := by
  unfold runEngine deduplicate_files
  exact foldl_processGroup_skip orc deploy_dir (find_duplicate_files orc fs) (fs, initStats) h

/-- C2 (amended, witness): a tree whose only duplicate group is rejected
by the exclusion list is returned unchanged with zero counters. -/
theorem dedup_C2_amended_witness :
    (∀ g ∈ find_duplicate_files noFailOracle fsIdemW, policyAccepts "d" g.2 = false) ∧
    runEngine noFailOracle "d" fsIdemW = (fsIdemW, initStats) :=
  ⟨by decide, dedup_C2_amended noFailOracle "d" fsIdemW (by decide)⟩

/-- C5 (amended): a failed write during a reference rewrite is caught
inside update_file_references itself: the call reports no change and
leaves the filesystem as it was, so the group is not aborted and its
deletion phase still runs (the counterexample theorem shows the members
being deleted). -/
theorem dedup_C5_amended (orc : FsOracle) (fs : FileSys)
    (file_path old_ref new_ref : List Char)
    (h : orc.writeFails file_path = true) :
    update_file_references orc fs file_path old_ref new_ref = (fs, false) := by
  unfold update_file_references
  split
  · rfl
  · cases hR : fsRead fs file_path with
    | none => simp only [hR]
    | some bytes =>
      simp only [hR]
      split
      · rfl
      · simp [h]

/-- C5 (amended, witness): a concrete failing write is reported as no
change. -/
theorem dedup_C5_amended_witness :
    orcWriteAll.writeFails (strChars "d/a/p.html") = true ∧
    update_file_references orcWriteAll fsUpdW (strChars "d/a/p.html")
        (strChars "x.css") (strChars "../shared/x.css") = (fsUpdW, false) :=
  ⟨rfl, dedup_C5_amended orcWriteAll fsUpdW (strChars "d/a/p.html")
    (strChars "x.css") (strChars "../shared/x.css") rfl⟩

/-- C6 (amended): matching is case-insensitive on the attribute keyword
and on the filename token alike, a quoted token is replaced only when it
equals the old basename up to case and sits directly between the
delimiters, and the original quote characters are preserved. -/
theorem dedup_C6_amended_case_and_quotes :
    update_content (strChars "HREF='style.css'") (strChars "style.css") (strChars "N")
      = strChars "HREF='N'" ∧
    update_content (strChars "SRC=\"style.css\"") (strChars "style.css") (strChars "N")
      = strChars "SRC=\"N\"" ∧
    update_content (strChars "href='STYLE.css'") (strChars "style.css") (strChars "N")
      = strChars "href='N'" ∧
    update_content (strChars "href=\"nostyle.css\"") (strChars "style.css") (strChars "N")
      = strChars "href=\"nostyle.css\"" := by
  refine ⟨rfl, rfl, rfl, rfl⟩

/-- Every Unicode scalar value is below 1114112. -/
theorem charToNat_lt (c : Char) : c.toNat < 1114112 := by
  rcases c.valid with h | h
  · have h1 : c.val.toNat < 55296 := UInt32.toNat_lt_of_lt (by decide) h
    exact Nat.lt_trans h1 (by decide)
  · exact UInt32.toNat_lt_of_lt (by decide) h.2

/-- UTF-8 encoding emits only bytes below 245. -/
theorem utf8EncodeChar_lt_245 (c : Char) : ∀ b ∈ utf8EncodeChar c, b < 245 := by
  intro b hb
  have hc : c.toNat < 1114112 := charToNat_lt c
  unfold utf8EncodeChar at hb
  dsimp only at hb
  split at hb
  · simp at hb; omega
  · split at hb
    · simp at hb; rcases hb with h | h <;> omega
    · split at hb
      · simp at hb; rcases hb with h | h | h <;> omega
      · simp at hb; rcases hb with h | h | h | h <;> omega

theorem utf8Encode_lt_245 : ∀ (cs : List Char), ∀ b ∈ utf8Encode cs, b < 245
  | [] => by intro b hb; simp [utf8Encode] at hb
  | c :: t => by
    intro b hb
    simp only [utf8Encode, List.mem_append] at hb
    rcases hb with h | h
    · exact utf8EncodeChar_lt_245 c b h
    · exact utf8Encode_lt_245 t b h

/-- Membership in addToIndex: a group either was already in the index,
or is an old bucket extended at the end with the new path, or is the
fresh singleton bucket. -/
theorem mem_addToIndex : ∀ (idx : List (List Nat × List (List Char))) (h : List Nat)
    (p : List Char) (g : List Nat × List (List Char)),
    g ∈ addToIndex idx h p →
    g ∈ idx ∨ (∃ ps, (g.1, ps) ∈ idx ∧ g.2 = ps ++ [p]) ∨ g = (h, [p])
  | [], h, p, g, hm => by
    simp only [addToIndex, List.mem_singleton] at hm
    exact Or.inr (Or.inr hm)
  | (h0, ps) :: rest, h, p, g, hm => by
    unfold addToIndex at hm
    split at hm
    · rcases List.mem_cons.mp hm with hg | hg
      · refine Or.inr (Or.inl ⟨ps, ?_, ?_⟩)
        · rw [hg]
          exact List.mem_cons_self _ _
        · rw [hg]
      · exact Or.inl (List.mem_cons_of_mem _ hg)
    · rcases List.mem_cons.mp hm with hg | hg
      · exact Or.inl (hg ▸ List.mem_cons_self _ _)
      · rcases mem_addToIndex rest h p g hg with h1 | h1 | h1
        · exact Or.inl (List.mem_cons_of_mem _ h1)
        · obtain ⟨qs, hq1, hq2⟩ := h1
          exact Or.inr (Or.inl ⟨qs, List.mem_cons_of_mem _ hq1, hq2⟩)
        · exact Or.inr (Or.inr h1)

/-- Every bucket built so far stays a subsequence of the walked prefix
of paths as the index is folded over the remaining files. -/
theorem buildIndex_go_sublist (orc : FsOracle) :
    ∀ (fs : FileSys) (idx : List (List Nat × List (List Char)))
      (pre : List (List Char)),
      (∀ g ∈ idx, List.Sublist g.2 pre) →
      ∀ g ∈ fs.foldl (indexStep orc) idx, List.Sublist g.2 (pre ++ walkPaths fs)
  | [], idx, pre, hpre, g, hg => by
    simpa [walkPaths] using hpre g hg
  | e :: t, idx, pre, hpre, g, hg => by
    have hstep : ∀ g2 ∈ indexStep orc idx e, List.Sublist g2.2 (pre ++ [e.1]) := by
      intro g2 hg2
      unfold indexStep at hg2
      cases hh : calculate_file_hash orc e.1 e.2 with
      | none =>
        rw [hh] at hg2
        exact (hpre g2 hg2).trans (List.sublist_append_left _ _)
      | some hv =>
        rw [hh] at hg2
        rcases mem_addToIndex idx hv e.1 g2 hg2 with h1 | h1 | h1
        · exact (hpre g2 h1).trans (List.sublist_append_left _ _)
        · obtain ⟨qs, hq1, hq2⟩ := h1
          rw [hq2]
          exact List.Sublist.append_right (hpre (g2.1, qs) hq1) [e.1]
        · rw [h1]
          exact List.sublist_append_right _ _
    have hrec := buildIndex_go_sublist orc t (indexStep orc idx e) (pre ++ [e.1]) hstep g
      (by simpa [List.foldl_cons] using hg)
    have : pre ++ [e.1] ++ walkPaths t = pre ++ walkPaths (e :: t) := by
      simp [walkPaths]
    rwa [this] at hrec

/-- A group of the duplicate index has at least two members, listed in
scan order (a subsequence of the tree-walk order). -/
theorem find_duplicate_files_mem (orc : FsOracle) (fs : FileSys)
    (g : List Nat × List (List Char)) (hg : g ∈ find_duplicate_files orc fs) :
    2 ≤ g.2.length ∧ List.Sublist g.2 (walkPaths fs) := by
  unfold find_duplicate_files at hg
  have hm := List.mem_filter.mp hg
  constructor
  · have h2 := hm.2
    simp only [decide_eq_true_eq] at h2
    omega
  · have hb : g ∈ buildIndex orc fs := hm.1
    unfold buildIndex at hb
    simpa using buildIndex_go_sublist orc fs [] [] (by simp) g hb

/-- C7: the canonicalization policy applies its rejection rules in
source order — a group whose member basenames differ is rejected as
ambiguous regardless of the exclusion list, an excluded basename is
rejected next, and otherwise the group is accepted with the first member
in scan order as canonical and the shared destination
deploy/shared/basename; and every group handed to the policy by
find_duplicate_files has at least two members listed in scan order (a
subsequence of the tree walk), so the first member is the first seen. -/
theorem dedup_C7_policy_order :
    (∀ (deploy_dir : String) (paths : List (List Char)), 2 ≤ paths.length →
      (1 < ((paths.map basenameCh).eraseDups).length →
        evaluatePolicy deploy_dir paths = PolicyResult.ambiguous) ∧
      (((paths.map basenameCh).eraseDups).length ≤ 1 →
        isExcludedName (basenameCh (paths.headD [])) = true →
        evaluatePolicy deploy_dir paths = PolicyResult.excluded) ∧
      (((paths.map basenameCh).eraseDups).length ≤ 1 →
        isExcludedName (basenameCh (paths.headD [])) = false →
        evaluatePolicy deploy_dir paths =
          PolicyResult.accept (paths.headD [])
            (pathJoinCh (pathJoinCh (strChars deploy_dir) (strChars "shared"))
              (basenameCh (paths.headD []))))) ∧
    (∀ (orc : FsOracle) (fs : FileSys) (g : List Nat × List (List Char)),
      g ∈ find_duplicate_files orc fs →
      2 ≤ g.2.length ∧ List.Sublist g.2 (walkPaths fs)) := by
  constructor
  · intro deploy_dir paths h2
    refine ⟨?_, ?_, ?_⟩
    · intro hdup
      unfold evaluatePolicy
      rw [if_neg (by omega), if_pos hdup]
    · intro hdd hexc
      unfold evaluatePolicy
      rw [if_neg (by omega), if_neg (by omega)]
      dsimp only
      rw [if_pos hexc]
    · intro hdd hexc
      unfold evaluatePolicy
      rw [if_neg (by omega), if_neg (by omega)]
      dsimp only
      rw [if_neg (by rw [hexc]; simp)]
  · exact find_duplicate_files_mem

/-- C7 (witness): the three policy outcomes and the scan-order property
at concrete inputs. -/
theorem dedup_C7_policy_order_witness :
    evaluatePolicy "d" [strChars "d/a/x.css", strChars "d/b/y.css"]
      = PolicyResult.ambiguous ∧
    evaluatePolicy "d" [strChars "d/a/index.html", strChars "d/b/index.html"]
      = PolicyResult.excluded ∧
    evaluatePolicy "d" [strChars "d/a/x.css", strChars "d/b/x.css"]
      = PolicyResult.accept (strChars "d/a/x.css") (strChars "d/shared/x.css") ∧
    (2 ≤ (asciiBytes "Z", [strChars "d/a/x.css", strChars "d/b/x.css"]).2.length ∧
      List.Sublist (asciiBytes "Z", [strChars "d/a/x.css", strChars "d/b/x.css"]).2
        (walkPaths fsPolicyW)) :=
  ⟨(dedup_C7_policy_order.1 "d" _ (by decide)).1 (by decide),
   (dedup_C7_policy_order.1 "d" _ (by decide)).2.1 (by decide) (by decide),
   (dedup_C7_policy_order.1 "d" _ (by decide)).2.2 (by decide) (by decide),
   dedup_C7_policy_order.2 noFailOracle fsPolicyW _ (by decide)⟩

theorem beqCommList (a b : List Char) : (a == b) = (b == a) := by
  cases h : a == b
  · cases h2 : b == a
    · rfl
    · have hba : b = a := eq_of_beq h2
      subst hba
      simp at h
  · have hab : a = b := eq_of_beq h
    subst hab
    simp

theorem fsExists_iff_read (fs : FileSys) (p : List Char) :
    fsExists fs p = true ↔ ∃ c, fsRead fs p = some c := by
  induction fs with
  | nil => simp [fsExists, fsRead]
  | cons e t ih =>
    unfold fsExists fsRead at *
    simp only [List.any_cons, List.find?]
    cases he : e.1 == p
    · simpa [he] using ih
    · simp [he]

/-- Overwriting an existing key in place does not change which keys exist. -/
theorem fsExists_map_upd (fs : FileSys) (p : List Char) (c : List Nat) (q : List Char) :
    fsExists (fs.map fun e => if e.1 == p then (p, c) else e) q = fsExists fs q := by
  induction fs with
  | nil => rfl
  | cons e t ih =>
    simp only [List.map_cons]
    unfold fsExists at *
    simp only [List.any_cons]
    rw [ih]
    congr 1
    split
    · rename_i hp
      rw [show e.1 = p from eq_of_beq hp]
    · rfl

theorem fsExists_fsWrite (fs : FileSys) (p : List Char) (c : List Nat) (q : List Char) :
    fsExists (fsWrite fs p c) q = (fsExists fs q || (q == p)) := by
  unfold fsWrite
  split
  · rename_i hex
    rw [fsExists_map_upd]
    cases hq : q == p
    · simp
    · have hqp : q = p := eq_of_beq hq
      subst hqp
      simp [hex]
  · unfold fsExists
    rw [List.any_append]
    congr 1
    show [(p, c)].any (fun e => e.1 == q) = (q == p)
    simp only [List.any_cons, List.any_nil, Bool.or_false]
    exact beqCommList p q

theorem fsExists_fsRemove (fs : FileSys) (p q : List Char) :
    fsExists (fsRemove fs p) q = (fsExists fs q && !(q == p)) := by
  induction fs with
  | nil => rfl
  | cons e t ih =>
    unfold fsRemove fsExists at *
    simp only [List.filter_cons]
    split
    · rename_i hk
      simp only [List.any_cons]
      rw [ih]
      cases hq : q == p
      · simp
      · have hqp : q = p := eq_of_beq hq
        subst hqp
        have hk2 : (e.1 == q) = false := by
          cases h : e.1 == q
          · rfl
          · rw [h] at hk; simp at hk
        simp [hk2]
    · rename_i hk
      rw [ih]
      have he : (e.1 == p) = true := by
        cases h : e.1 == p
        · rw [h] at hk; simp at hk
        · rfl
      have hep : e.1 = p := eq_of_beq he
      simp only [List.any_cons]
      cases hq : q == p
      · have : (e.1 == q) = false := by
          rw [hep]
          rw [beqCommList]
          exact hq
        simp [this]
      · have hqp : q = p := eq_of_beq hq
        subst hqp
        simp

/-- The reference rewriter never creates or deletes a file: whatever
branch it takes, the set of existing paths is unchanged. -/
theorem update_file_references_exists (orc : FsOracle) (fs : FileSys)
    (fp old_ref new_ref q : List Char) :
    fsExists (update_file_references orc fs fp old_ref new_ref).1 q = fsExists fs q := by
  unfold update_file_references
  split
  · rfl
  · cases hR : fsRead fs fp with
    | none => simp only [hR]
    | some bytes =>
      simp only [hR]
      split
      · rfl
      · split
        · rfl
        · show fsExists (fsWrite fs fp _) q = fsExists fs q
          rw [fsExists_fsWrite]
          have hfp : fsExists fs fp = true :=
            (fsExists_iff_read fs fp).mpr ⟨bytes, hR⟩
          cases hq : q == fp
          · simp
          · have : q = fp := eq_of_beq hq
            subst this
            simp [hfp]

/-- One rewrite candidate changes neither the set of paths nor any
counter except references_updated. -/
theorem rewriteStep_invar (orc : FsOracle) (td ofn rsp : List Char)
    (st : FileSys × DeduplicationStats) (rf : List Char) :
    (∀ q, fsExists (rewriteStep orc td ofn rsp st rf).1 q = fsExists st.1 q) ∧
    (rewriteStep orc td ofn rsp st rf).2.files_processed = st.2.files_processed ∧
    (rewriteStep orc td ofn rsp st rf).2.files_deduplicated = st.2.files_deduplicated ∧
    (rewriteStep orc td ofn rsp st rf).2.bytes_saved = st.2.bytes_saved := by
  unfold rewriteStep
  split
  · refine ⟨fun q => update_file_references_exists orc st.1 rf ofn rsp q, ?_, ?_, ?_⟩
    all_goals (dsimp only; split <;> rfl)
  · exact ⟨fun q => rfl, rfl, rfl, rfl⟩

theorem rewriteFold_invar (orc : FsOracle) (td ofn rsp : List Char) :
    ∀ (rfs : List (List Char)) (st : FileSys × DeduplicationStats),
      (∀ q, fsExists (rfs.foldl (rewriteStep orc td ofn rsp) st).1 q = fsExists st.1 q) ∧
      (rfs.foldl (rewriteStep orc td ofn rsp) st).2.files_processed
        = st.2.files_processed ∧
      (rfs.foldl (rewriteStep orc td ofn rsp) st).2.files_deduplicated
        = st.2.files_deduplicated ∧
      (rfs.foldl (rewriteStep orc td ofn rsp) st).2.bytes_saved = st.2.bytes_saved
  | [], st => ⟨fun _ => rfl, rfl, rfl, rfl⟩
  | rf :: t, st => by
    have h1 := rewriteStep_invar orc td ofn rsp st rf
    have h2 := rewriteFold_invar orc td ofn rsp t (rewriteStep orc td ofn rsp st rf)
    rw [List.foldl_cons]
    exact ⟨fun q => (h2.1 q).trans (h1.1 q),
      h2.2.1.trans h1.2.1, h2.2.2.1.trans h1.2.2.1, h2.2.2.2.trans h1.2.2.2⟩

theorem rewriteForTarget_invar (orc : FsOracle) (sh : List Char)
    (rfs : List (List Char)) (st : FileSys × DeduplicationStats) (tf : List Char) :
    (∀ q, fsExists (rewriteForTarget orc sh rfs st tf).1 q = fsExists st.1 q) ∧
    (rewriteForTarget orc sh rfs st tf).2.files_processed = st.2.files_processed ∧
    (rewriteForTarget orc sh rfs st tf).2.files_deduplicated = st.2.files_deduplicated ∧
    (rewriteForTarget orc sh rfs st tf).2.bytes_saved = st.2.bytes_saved := by
  unfold rewriteForTarget
  exact rewriteFold_invar orc _ _ _ rfs st

/-- The whole reference-update phase preserves the set of paths and every
counter except references_updated. -/
theorem rewritePhase_invar (orc : FsOracle) (sh : List Char) (rfs : List (List Char)) :
    ∀ (paths : List (List Char)) (st : FileSys × DeduplicationStats),
      (∀ q, fsExists (rewritePhase orc sh rfs paths st).1 q = fsExists st.1 q) ∧
      (rewritePhase orc sh rfs paths st).2.files_processed = st.2.files_processed ∧
      (rewritePhase orc sh rfs paths st).2.files_deduplicated
        = st.2.files_deduplicated ∧
      (rewritePhase orc sh rfs paths st).2.bytes_saved = st.2.bytes_saved
  | [], st => ⟨fun _ => rfl, rfl, rfl, rfl⟩
  | tf :: t, st => by
    have h1 := rewriteForTarget_invar orc sh rfs st tf
    have h2 := rewritePhase_invar orc sh rfs t (rewriteForTarget orc sh rfs st tf)
    unfold rewritePhase at h2 ⊢
    rw [List.foldl_cons]
    exact ⟨fun q => (h2.1 q).trans (h1.1 q),
      h2.2.1.trans h1.2.1, h2.2.2.1.trans h1.2.2.1, h2.2.2.2.trans h1.2.2.2⟩

/-- A removal that is allowed to succeed removes the file and counts it. -/
theorem removeOne_spec (orc : FsOracle) (file_size : Nat) (fs : FileSys)
    (stats : DeduplicationStats) (p : List Char)
    (h1 : orc.removeFails p = false) (h2 : fsExists fs p = true) :
    removeOne orc file_size (fs, stats) p
      = (fsRemove fs p,
         { stats with
           bytes_saved := stats.bytes_saved + file_size,
           files_deduplicated := stats.files_deduplicated + 1 }) := by
  unfold removeOne
  rw [h1]
  simp [h2]

/-- Folding successful removals deletes exactly the listed files and
adds file_size and one deduplicated file per element. -/
theorem removeFold_spec (orc : FsOracle) (file_size : Nat) :
    ∀ (l : List (List Char)) (fs : FileSys) (stats : DeduplicationStats),
      l.Nodup →
      (∀ p ∈ l, orc.removeFails p = false) →
      (∀ p ∈ l, fsExists fs p = true) →
      l.foldl (removeOne orc file_size) (fs, stats)
        = (l.foldl fsRemove fs,
           { stats with
             bytes_saved := stats.bytes_saved + file_size * l.length,
             files_deduplicated := stats.files_deduplicated + l.length })
  | [], fs, stats, _, _, _ => by simp
  | p :: t, fs, stats, hnd, hrf, hex => by
    obtain ⟨sa, sb, sc, sd⟩ := stats
    rw [List.foldl_cons,
      removeOne_spec orc file_size fs _ p (hrf p (List.mem_cons_self p t))
        (hex p (List.mem_cons_self p t))]
    have hpn : p ∉ t := (List.nodup_cons.mp hnd).1
    have hnd2 : t.Nodup := (List.nodup_cons.mp hnd).2
    have hex2 : ∀ q ∈ t, fsExists (fsRemove fs p) q = true := by
      intro q hq
      rw [fsExists_fsRemove]
      have hqp : (q == p) = false := by
        cases h : q == p
        · rfl
        · exact absurd (eq_of_beq h ▸ hq) hpn
      rw [hqp, hex q (List.mem_cons_of_mem _ hq)]
      rfl
    rw [removeFold_spec orc file_size t (fsRemove fs p) _ hnd2
      (fun q hq => hrf q (List.mem_cons_of_mem _ hq)) hex2]
    rw [List.foldl_cons]
    refine congrArg _ ?_
    simp only [DeduplicationStats.mk.injEq, List.length_cons, Nat.mul_succ,
      true_and, and_true]
    refine ⟨by omega, by ring⟩

theorem fsExists_removeAll : ∀ (l : List (List Char)) (fs : FileSys) (q : List Char),
    fsExists (l.foldl fsRemove fs) q = (fsExists fs q && !(decide (q ∈ l)))
  | [], fs, q => by simp
  | p :: t, fs, q => by
    rw [List.foldl_cons, fsExists_removeAll t (fsRemove fs p) q, fsExists_fsRemove]
    by_cases hq : q = p
    · subst hq
      simp
    · have hb : (q == p) = false := by
        cases h : q == p
        · rfl
        · exact absurd (eq_of_beq h) hq
      simp [hb, hq]

theorem foldSkip_eq (orc : FsOracle) (file_size : Nat) (c : List Char) :
    ∀ (l : List (List Char)) (st : FileSys × DeduplicationStats),
      (∀ p ∈ l, (p == c) = false) →
      l.foldl (fun st2 p => if p == c then st2 else removeOne orc file_size st2 p) st
        = l.foldl (removeOne orc file_size) st
  | [], _, _ => rfl
  | p :: t, st, h => by
    have hx : ¬((p == c) = true) := by
      rw [h p (List.mem_cons_self p t)]
      simp
    simp only [List.foldl_cons]
    rw [if_neg hx]
    exact foldSkip_eq orc file_size c t _ (fun q hq => h q (List.mem_cons_of_mem _ hq))

/-- The deletion phase of an accepted group with distinct, present,
removable members deletes every member (the canonical file included) and
adds file_size bytes and one deduplicated file per member, leaving the
other counters alone. -/
theorem removalPhase_spec (orc : FsOracle) (file_size : Nat) (c : List Char)
    (rest : List (List Char)) (fs : FileSys) (stats : DeduplicationStats)
    (hnd : (c :: rest).Nodup)
    (hrf : ∀ p ∈ c :: rest, orc.removeFails p = false)
    (hex : ∀ p ∈ c :: rest, fsExists fs p = true) :
    (∀ p ∈ c :: rest,
      fsExists (removalPhase orc (c :: rest) c file_size (fs, stats)).1 p = false) ∧
    (removalPhase orc (c :: rest) c file_size (fs, stats)).2
      = { stats with
          bytes_saved := stats.bytes_saved + file_size * (c :: rest).length,
          files_deduplicated := stats.files_deduplicated + (c :: rest).length } := by
  have hcn : c ∉ rest := (List.nodup_cons.mp hnd).1
  have hndr : rest.Nodup := (List.nodup_cons.mp hnd).2
  have hskip : ∀ p ∈ rest, (p == c) = false := by
    intro p hp
    cases h : p == c
    · rfl
    · exact absurd (eq_of_beq h ▸ hp) hcn
  have hrfr : ∀ p ∈ rest, orc.removeFails p = false :=
    fun p hp => hrf p (List.mem_cons_of_mem _ hp)
  have hexr : ∀ p ∈ rest, fsExists fs p = true :=
    fun p hp => hex p (List.mem_cons_of_mem _ hp)
  have hmain : removalPhase orc (c :: rest) c file_size (fs, stats)
      = removeOne orc file_size
          (rest.foldl fsRemove fs,
           { stats with
             bytes_saved := stats.bytes_saved + file_size * rest.length,
             files_deduplicated := stats.files_deduplicated + rest.length }) c := by
    unfold removalPhase
    simp only [List.foldl_cons]
    rw [if_pos (by simp), foldSkip_eq orc file_size c rest (fs, stats) hskip,
      removeFold_spec orc file_size rest fs stats hndr hrfr hexr]
  have hexc2 : fsExists (rest.foldl fsRemove fs) c = true := by
    rw [fsExists_removeAll]
    have hd : decide (c ∈ rest) = false := by simp [hcn]
    rw [hd, hex c (List.mem_cons_self c rest)]
    rfl
  rw [hmain, removeOne_spec orc file_size _ _ c (hrf c (List.mem_cons_self c rest)) hexc2]
  constructor
  · intro p hp
    rcases List.mem_cons.mp hp with hp | hp
    · subst hp
      rw [fsExists_fsRemove]
      simp
    · rw [fsExists_fsRemove, fsExists_removeAll]
      have hd : decide (p ∈ rest) = true := by simp [hp]
      rw [hd]
      simp
  · obtain ⟨sa, sb, sc, sd⟩ := stats
    simp only [DeduplicationStats.mk.injEq, List.length_cons, Nat.mul_succ,
      true_and, and_true]
    refine ⟨by omega, by ring⟩

/-- A group with at least two members, one shared basename and a
non-excluded name is accepted with the first member as canonical. -/
theorem evaluatePolicy_accepts_of (deploy_dir : String) (paths : List (List Char))
    (h2 : 2 ≤ paths.length)
    (hsame : ((paths.map basenameCh).eraseDups).length ≤ 1)
    (hexcl : isExcludedName (basenameCh (paths.headD [])) = false) :
    evaluatePolicy deploy_dir paths
      = PolicyResult.accept (paths.headD [])
          (pathJoinCh (pathJoinCh (strChars deploy_dir) (strChars "shared"))
            (basenameCh (paths.headD []))) := by
  unfold evaluatePolicy
  rw [if_neg (by omega), if_neg (by omega)]
  dsimp only
  rw [if_neg (by rw [hexcl]; simp)]

/-- Full accounting of one accepted group whose copy succeeds and whose
members are distinct, present and removable. -/
theorem processGroup_accept_spec (orc : FsOracle) (deploy_dir : String)
    (fs : FileSys) (stats : DeduplicationStats) (dg : List Nat)
    (c sh : List Char) (rest : List (List Char)) (content : List Nat)
    (hE : evaluatePolicy deploy_dir (c :: rest) = PolicyResult.accept c sh)
    (hcopy : orc.copyFails sh = false)
    (hne : (c == sh) = false)
    (hread : fsRead fs c = some content)
    (hnd : (c :: rest).Nodup)
    (hex : ∀ p ∈ c :: rest, fsExists fs p = true)
    (hrm : ∀ p ∈ c :: rest, orc.removeFails p = false) :
    (processGroup orc deploy_dir (fs, stats) (dg, c :: rest)).2.files_processed
        = stats.files_processed + 1 ∧
    (processGroup orc deploy_dir (fs, stats) (dg, c :: rest)).2.files_deduplicated
        = stats.files_deduplicated + (c :: rest).length ∧
    (processGroup orc deploy_dir (fs, stats) (dg, c :: rest)).2.bytes_saved
        = stats.bytes_saved + content.length * (c :: rest).length ∧
    (∀ p ∈ c :: rest,
      fsExists (processGroup orc deploy_dir (fs, stats) (dg, c :: rest)).1 p = false) := by
  unfold processGroup
  dsimp only
  rw [hE]
  dsimp only
  rw [hcopy, hne]
  simp only [Bool.or_false]
  rw [if_neg (by simp)]
  rw [hread]
  dsimp only
  generalize hst2 : rewritePhase orc sh
      (List.filter isTextualName (walkPaths (fsWrite fs sh content)))
      (c :: rest) (fsWrite fs sh content, stats) = st2
  have hrw := rewritePhase_invar orc sh
      (List.filter isTextualName (walkPaths (fsWrite fs sh content)))
      (c :: rest) (fsWrite fs sh content, stats)
  rw [hst2] at hrw
  obtain ⟨fs2, stats2⟩ := st2
  obtain ⟨hrw1, hrwfp, hrwfd, hrwbs⟩ := hrw
  dsimp only at hrw1 hrwfp hrwfd hrwbs
  have hex3 : ∀ p ∈ c :: rest, fsExists fs2 p = true := by
    intro p hp
    rw [hrw1 p, fsExists_fsWrite]
    rw [hex p hp]
    rfl
  have hrp := removalPhase_spec orc content.length c rest fs2 stats2 hnd hrm hex3
  refine ⟨?_, ?_, ?_, ?_⟩
  · dsimp only
    rw [hrp.2]
    dsimp only
    exact congrArg (· + 1) hrwfp
  · dsimp only
    rw [hrp.2]
    dsimp only
    exact congrArg (· + (c :: rest).length) hrwfd
  · dsimp only
    rw [hrp.2]
    dsimp only
    exact congrArg (· + content.length * (c :: rest).length) hrwbs
  · intro p hp
    exact hrp.1 p hp

/-- C8: for an accepted group whose shared copy succeeds and whose
members are distinct, present and all successfully removable, the group
loop removes every member including the canonical file, adds
size * members to bytes_saved and members to files_deduplicated, and
increments files_processed exactly once; a group the policy rejects
leaves every counter untouched. -/
theorem dedup_C8_group_accounting (orc : FsOracle) (deploy_dir : String)
    (fs : FileSys) (stats : DeduplicationStats) (dg : List Nat)
    (paths : List (List Char))
    (h2 : 2 ≤ paths.length)
    (hsame : ((paths.map basenameCh).eraseDups).length ≤ 1)
    (hexcl : isExcludedName (basenameCh (paths.headD [])) = false)
    (hcopy : orc.copyFails (sharedPathOfGroup deploy_dir (dg, paths)) = false)
    (hne : ((paths.headD []) == sharedPathOfGroup deploy_dir (dg, paths)) = false)
    (hnd : paths.Nodup)
    (hex : ∀ p ∈ paths, fsExists fs p = true)
    (hrm : ∀ p ∈ paths, orc.removeFails p = false) :
    (processGroup orc deploy_dir (fs, stats) (dg, paths)).2.files_processed
        = stats.files_processed + 1 ∧
    (processGroup orc deploy_dir (fs, stats) (dg, paths)).2.files_deduplicated
        = stats.files_deduplicated + paths.length ∧
    (processGroup orc deploy_dir (fs, stats) (dg, paths)).2.bytes_saved
        = stats.bytes_saved
            + ((fsRead fs (paths.headD [])).getD []).length * paths.length ∧
    (∀ p ∈ paths,
      fsExists (processGroup orc deploy_dir (fs, stats) (dg, paths)).1 p = false) ∧
    (∀ (dg2 : List Nat) (paths2 : List (List Char)),
      policyAccepts deploy_dir paths2 = false →
      (processGroup orc deploy_dir (fs, stats) (dg2, paths2)).2 = stats) := by
  obtain ⟨c, rest, rfl⟩ : ∃ c rest, paths = c :: rest := by
    cases paths with
    | nil => simp at h2
    | cons a t => exact ⟨a, t, rfl⟩
  have hE := evaluatePolicy_accepts_of deploy_dir (c :: rest) h2 hsame hexcl
  simp only [List.headD_cons] at hE
  have hcopy2 : orc.copyFails
      (pathJoinCh (pathJoinCh (strChars deploy_dir) (strChars "shared"))
        (basenameCh c)) = false := hcopy
  have hne2 : (c == pathJoinCh (pathJoinCh (strChars deploy_dir) (strChars "shared"))
      (basenameCh c)) = false := hne
  obtain ⟨content, hread⟩ :=
    (fsExists_iff_read fs c).mp (hex c (List.mem_cons_self c rest))
  have hspec := processGroup_accept_spec orc deploy_dir fs stats dg c _ rest content
    hE hcopy2 hne2 hread hnd hex hrm
  refine ⟨hspec.1, hspec.2.1, ?_, hspec.2.2.2, ?_⟩
  · simp only [List.headD_cons, hread, Option.getD_some]
    exact hspec.2.2.1
  · intro dg2 paths2 hrej
    rw [processGroup_skip orc deploy_dir (fs, stats) (dg2, paths2) hrej]

/-- C8 (witness): the accounting at a concrete accepted two-member group
and the untouched counters at a concrete rejected group. -/
theorem dedup_C8_group_accounting_witness :
    (processGroup noFailOracle "deploy" (fsStatsW, initStats) grpStatsW).2.files_processed
        = 1 ∧
    (processGroup noFailOracle "deploy" (fsStatsW, initStats) grpStatsW).2.files_deduplicated
        = 2 ∧
    (processGroup noFailOracle "deploy" (fsStatsW, initStats) grpStatsW).2.bytes_saved
        = 6 ∧
    fsExists (processGroup noFailOracle "deploy" (fsStatsW, initStats) grpStatsW).1
        (strChars "deploy/u1/g.css") = false ∧
    (processGroup noFailOracle "deploy" (fsStatsW, initStats)
        (asciiBytes "X", [strChars "d/a/index.html", strChars "d/b/index.html"])).2
      = initStats := by
  have h := dedup_C8_group_accounting noFailOracle "deploy" fsStatsW initStats
    (asciiBytes "CCC") [strChars "deploy/u1/g.css", strChars "deploy/u2/g.css"]
    (by decide) (by decide) (by decide) (by decide) (by decide) (by decide)
    (by decide) (by decide)
  exact ⟨h.1, h.2.1, h.2.2.1, h.2.2.2.1 (strChars "deploy/u1/g.css") (by decide),
    h.2.2.2.2 (asciiBytes "X") [strChars "d/a/index.html", strChars "d/b/index.html"]
      (by decide)⟩

/-- C10: the reference rewriter decodes a file as UTF-8 dropping
undecodable bytes, so whatever it writes back is re-encoded text and can
never contain the invalid byte 255, whatever the input bytes were; on
the concrete file bytesMixed, which carries a 255 byte outside the
substituted token, a substitution occurs and the file is written back
with the 255 byte gone while bytes outside the token are otherwise
preserved. -/
theorem dedup_C10_decode_drops_bytes :
    (∀ (bytes : List Nat) (old_ref new_ref : List Char),
      List.count 255 (utf8Encode (update_content (utf8DecodeIgnore bytes) old_ref new_ref))
        = 0) ∧
    update_file_references noFailOracle fsMixed (strChars "d/a/p.html")
        (strChars "x.css") (strChars "../shared/x.css")
      = ([(strChars "d/a/p.html", asciiBytes "<a href=\"../shared/x.css\"><b>")], true) ∧
    List.count 255 bytesMixed = 1 := by
  refine ⟨?_, rfl, rfl⟩
  intro bytes old_ref new_ref
  rw [List.count_eq_zero]
  intro hmem
  have := utf8Encode_lt_245 _ 255 hmem
  omega

end DedupDocs
